import Mathlib

/-!
Formal model of the florentino polynomial/linear regression engine
(`src/florentino/linear_model/linear.py`), shallowly embedded over exact
rationals.  Arrays are modelled as an explicit shape together with row-major
rank-2 data, so that the dimensionality (`ndim`) checks of the source can be
stated; the matrix-algebra primitives supplied by the numeric runtime
(multiply, transpose, inverse) are modelled exactly, with the inverse failing
precisely on singular input.
-/

/-- A numpy-style array: an explicit shape together with row-major rank-2
data.  Only rank-2 arrays carry meaningful data in this development; the
shape list records the dimensionality so that the `ndim` checks of the
source can be modelled. -/
structure NDArray where
  shape : List Nat
  data : List (List ℚ)
deriving DecidableEq

instance : Inhabited NDArray := ⟨⟨[], []⟩⟩

/-- numpy `ndarray.ndim`. -/
def NDArray.ndim (a : NDArray) : Nat := a.shape.length

/-- First component of the shape (`shape[0]`, rows of a rank-2 array). -/
def rowsA (a : NDArray) : Nat := a.shape.getD 0 0

/-- Second component of the shape (`shape[1]`, columns of a rank-2 array). -/
def colsA (a : NDArray) : Nat := a.shape.getD 1 0

/-- Entry access, with default 0 outside the stored data. -/
def entry (a : NDArray) (i j : Nat) : ℚ := (a.data.getD i []).getD j 0

/-- Build a rank-2 array from its dimensions and an entry function. -/
def mk2 (r c : Nat) (f : Nat → Nat → ℚ) : NDArray :=
  ⟨[r, c], (List.range r).map (fun i => (List.range c).map (fun j => f i j))⟩

/-- numpy transpose. -/
def transposeA (a : NDArray) : NDArray :=
  mk2 (colsA a) (rowsA a) (fun i j => entry a j i)

/-- numpy matrix product `a @ b` (on conforming rank-2 arrays). -/
def matmulA (a b : NDArray) : NDArray :=
  mk2 (rowsA a) (colsA b) (fun i j =>
    ((List.range (colsA a)).map (fun k => entry a i k * entry b k j)).sum)

/-- numpy `hstack` of two rank-2 arrays with equal row counts. -/
def hstackA (a b : NDArray) : NDArray :=
  mk2 (rowsA a) (colsA a + colsA b) (fun i j =>
    if j < colsA a then entry a i j else entry b i (j - colsA a))

/-- Elementwise power `a ** d`. -/
def powA (a : NDArray) (d : Nat) : NDArray :=
  mk2 (rowsA a) (colsA a) (fun i j => entry a i j ^ d)

/-- `np.ones((n, 1))`. -/
def onesA (n : Nat) : NDArray := mk2 n 1 (fun _ _ => 1)

/-- numpy `reshape(-1, 1)` of a rank-2 array. -/
def reshapeM1 (a : NDArray) : NDArray :=
  mk2 (rowsA a * colsA a) 1 (fun i _ => entry a (i / colsA a) (i % colsA a))

/-- Elementwise difference (used only on arrays of identical shape). -/
def subA (a b : NDArray) : NDArray :=
  mk2 (rowsA a) (colsA a) (fun i j => entry a i j - entry b i j)

/-- Sum of all entries (`np.sum`). -/
def sumAll (a : NDArray) : ℚ := (a.data.map (fun r => r.sum)).sum

/-- Laplace expansion of the determinant along the first row, with explicit
fuel so that the definition is structurally recursive and kernel-reducible. -/
def detFuel : Nat → List (List ℚ) → ℚ
  | _, [] => 1
  | 0, _ :: _ => 0
  | fuel + 1, r :: rest =>
      (r.enum.map (fun p =>
        (-1 : ℚ) ^ p.1 * p.2 *
          detFuel fuel (rest.map (fun row => row.eraseIdx p.1)))).sum

/-- Determinant of a square matrix given as a list of rows. -/
def detL (M : List (List ℚ)) : ℚ := detFuel M.length M

/-- Minor obtained by deleting row `i` and column `j`. -/
def minorL (M : List (List ℚ)) (i j : Nat) : List (List ℚ) :=
  (M.eraseIdx i).map (fun row => row.eraseIdx j)

/-- Cofactor at position `(i, j)`. -/
def cofactorL (M : List (List ℚ)) (i j : Nat) : ℚ :=
  (-1 : ℚ) ^ (i + j) * detL (minorL M i j)

/-- Exact-arithmetic model of `np.linalg.inv`: the adjugate inverse, failing
(the runtime raises `LinAlgError`) exactly on singular input. -/
def invA (a : NDArray) : Option NDArray :=
  let d := detL a.data
  if d = 0 then none
  else some (mk2 (rowsA a) (rowsA a) (fun i j => cofactorL a.data j i / d))

/-- Error kinds of the engine: the `ValueError` shape failures raised in
`_check` and `predict`, and the propagated matrix-inversion failure. -/
inductive RegError where
  | invalidInputShape (msg : String)
  | singularMatrix
deriving DecidableEq

instance {ε α : Type} [DecidableEq ε] [DecidableEq α] : DecidableEq (Except ε α) := fun a b =>
  match a, b with
  | Except.ok x, Except.ok y =>
      if h : x = y then Decidable.isTrue (by rw [h])
      else Decidable.isFalse (by intro hc; injection hc; contradiction)
  | Except.error e, Except.error f =>
      if h : e = f then Decidable.isTrue (by rw [h])
      else Decidable.isFalse (by intro hc; injection hc; contradiction)
  | Except.ok _, Except.error _ => Decidable.isFalse (fun hc => Except.noConfusion hc)
  | Except.error _, Except.ok _ => Decidable.isFalse (fun hc => Except.noConfusion hc)

/-- The trained `LinearRegression` object: its attributes after a successful
`__init__`. -/
structure Model where
  degree : Int
  x : NDArray
  y : NDArray
  beta : NDArray
  num_data : Nat
  num_feature : Nat
deriving DecidableEq

instance : Inhabited Model := ⟨⟨1, default, default, default, 0, 0⟩⟩

/-- `LinearRegression._check`. -/
def _check (x y : NDArray) : Option RegError :=
  if x.ndim ≠ 2 then
    some (RegError.invalidInputShape "x must be a 2-dimensional array")
  else if y.ndim ≠ 2 then
    some (RegError.invalidInputShape "y must be a 2-dimensional array")
  else if colsA y ≠ 1 then
    some (RegError.invalidInputShape "y must have exactly one column")
  else if rowsA x ≠ rowsA y then
    some (RegError.invalidInputShape "Number of rows in x must match number of rows in y")
  else none

/-- `LinearRegression._polynomial_features`: start from `x.copy()` and for
`deg in range(2, degree + 1)` hstack `x ** deg` on the right. -/
def _polynomial_features (x : NDArray) (degree : Int) : NDArray :=
  (List.range' 2 ((degree - 1).toNat)).foldl (fun acc d => hstackA acc (powA x d)) x

/-- The augmented matrix built in `LinearRegression._fit`: a column of ones
(`np.ones((x.shape[0], 1))`) prepended to the expanded features. -/
def augmented (x0 : NDArray) (degree : Int) : NDArray :=
  hstackA (onesA (rowsA (_polynomial_features x0 degree))) (_polynomial_features x0 degree)

/-- `LinearRegression.__init__`: validation, `_polynomial_features`, `_fit`
(augmentation and `y.reshape(-1, 1)`), shape bookkeeping, and `_train`
(`beta = np.linalg.inv(x.T @ x) @ x.T @ y`). -/
def construct (x_train y_train : NDArray) (degree : Int) : Except RegError Model :=
  match _check x_train y_train with
  | some e => Except.error e
  | none =>
    match invA (matmulA (transposeA (augmented x_train degree)) (augmented x_train degree)) with
    | none => Except.error RegError.singularMatrix
    | some mi =>
        Except.ok ⟨degree, augmented x_train degree, reshapeM1 y_train,
          matmulA (matmulA mi (transposeA (augmented x_train degree))) (reshapeM1 y_train),
          rowsA (augmented x_train degree), colsA (augmented x_train degree)⟩

/-- `LinearRegression.predict`. -/
def predict (m : Model) (x : NDArray) : Except RegError NDArray :=
  if x.ndim ≠ 2 then
    Except.error (RegError.invalidInputShape "x must be a 2-dimensional array")
  else if colsA (_polynomial_features x m.degree) ≠ m.num_feature - 1 then
    Except.error (RegError.invalidInputShape
      ("x must have " ++ toString (m.num_feature - 1) ++ " features (including polynomial terms)"))
  else
    Except.ok (matmulA (hstackA (onesA (rowsA x)) (_polynomial_features x m.degree)) m.beta)

/-- `LinearRegression.para`. -/
def para (m : Model) : NDArray := m.beta

/-- Sum of squared residuals of target `y` against `x @ beta`
(`np.sum((y - x @ beta) ** 2)`). -/
def lossVal (x y beta : NDArray) : ℚ := sumAll (powA (subA y (matmulA x beta)) 2)

/-- `LinearRegression.loss`. -/
def loss (m : Model) : ℚ := lossVal m.x m.y m.beta

/-!
Heap-level model of the same constructor, tracking which arrays are freshly
allocated buffers and which alias a caller-supplied buffer.  `np.hstack` and
`@` allocate new buffers; `y_train.reshape(-1, 1)` on an already `n × 1`
array returns a view sharing the caller's buffer; `return self.beta` hands
back the internal object itself.  This level is only needed for the
ownership/aliasing claim about `para()`.
-/

/-- A reference to an array buffer in the heap. -/
structure Ref where
  id : Nat
deriving DecidableEq

instance : Inhabited Ref := ⟨⟨0⟩⟩

/-- The heap: array buffers indexed by allocation order. -/
abbrev Heap := List NDArray

/-- Read the buffer a reference points to. -/
def readRef (h : Heap) (r : Ref) : NDArray := h.getD r.id default

/-- Overwrite the buffer a reference points to (an in-place numpy mutation). -/
def writeRef (h : Heap) (r : Ref) (a : NDArray) : Heap := h.set r.id a

/-- The trained object at heap level: attributes hold references. -/
structure ModelS where
  degree : Int
  x : Ref
  y : Ref
  beta : Ref
  num_data : Nat
  num_feature : Nat
deriving DecidableEq

instance : Inhabited ModelS := ⟨⟨1, default, default, default, 0, 0⟩⟩

/-- `LinearRegression.__init__` at heap level.  `self.x` and `self.beta` are
freshly allocated buffers, appended to the heap in that order (they are
produced by `np.hstack` and `@`); `self.y` is the view
`y_train.reshape(-1, 1)`, which for the validated `n × 1` input shares the
caller's buffer, so the `y` attribute holds the caller's reference. -/
def constructS (h : Heap) (xr yr : Ref) (degree : Int) : Except RegError (Heap × ModelS) :=
  match _check (readRef h xr) (readRef h yr) with
  | some e => Except.error e
  | none =>
    match invA (matmulA (transposeA (augmented (readRef h xr) degree))
        (augmented (readRef h xr) degree)) with
    | none => Except.error RegError.singularMatrix
    | some mi =>
      Except.ok
        (h ++ [augmented (readRef h xr) degree,
               matmulA (matmulA mi (transposeA (augmented (readRef h xr) degree)))
                 (reshapeM1 (readRef h yr))],
         ⟨degree, ⟨h.length⟩, yr, ⟨h.length + 1⟩,
          rowsA (augmented (readRef h xr) degree), colsA (augmented (readRef h xr) degree)⟩)

/-- `LinearRegression.para` at heap level: `return self.beta` returns the
internal object itself. -/
def paraS (m : ModelS) : Ref := m.beta

/-- `LinearRegression.loss` at heap level. -/
def lossS (h : Heap) (m : ModelS) : ℚ :=
  lossVal (readRef h m.x) (readRef h m.y) (readRef h m.beta)

/-- `LinearRegression.predict` at heap level: it writes to no existing
buffer; on success its result is one freshly allocated buffer. -/
def predictS (h : Heap) (m : ModelS) (xr : Ref) : Except RegError (Heap × Ref) :=
  if (readRef h xr).ndim ≠ 2 then
    Except.error (RegError.invalidInputShape "x must be a 2-dimensional array")
  else if colsA (_polynomial_features (readRef h xr) m.degree) ≠ m.num_feature - 1 then
    Except.error (RegError.invalidInputShape
      ("x must have " ++ toString (m.num_feature - 1) ++ " features (including polynomial terms)"))
  else
    Except.ok
      (h ++ [matmulA (hstackA (onesA (rowsA (readRef h xr)))
               (_polynomial_features (readRef h xr) m.degree)) (readRef h m.beta)],
       ⟨h.length⟩)

/-- The coefficient vector as the spec words it: β = (XᵗX)⁻¹ Xᵗ Y, where X is
the expanded feature matrix with a column of ones prepended as its first
column, and Y is the target matrix. -/
def normalEquationBeta (x0 y : NDArray) (degree : Int) : Option NDArray :=
  (invA (matmulA (transposeA (hstackA (onesA (rowsA x0)) (_polynomial_features x0 degree)))
      (hstackA (onesA (rowsA x0)) (_polynomial_features x0 degree)))).map
    (fun mi => matmulA (matmulA mi
      (transposeA (hstackA (onesA (rowsA x0)) (_polynomial_features x0 degree)))) y)

/-!  Concrete data used by the witnesses: scenario A of the spec
(`X₀ = [[1],[2],[3],[4]]`, `Y = [[2],[4],[6],[8]]`), and a collinear
matrix with two identical columns for the singular scenario. -/

/-- Scenario A feature matrix. -/
def xA : NDArray := ⟨[4, 1], [[1], [2], [3], [4]]⟩

/-- Scenario A target matrix. -/
def yA : NDArray := ⟨[4, 1], [[2], [4], [6], [8]]⟩

/-- The model trained on scenario A with degree 1 (its attribute values;
the witness of C1 checks this against `construct`). -/
def mA : Model :=
  ⟨1, ⟨[4, 2], [[1, 1], [1, 2], [1, 3], [1, 4]]⟩, ⟨[4, 1], [[2], [4], [6], [8]]⟩,
   ⟨[2, 1], [[0], [2]]⟩, 4, 2⟩

/-- Feature matrix with two identical columns (collinear). -/
def xB : NDArray := ⟨[2, 2], [[1, 1], [2, 2]]⟩

/-- Target matrix for the collinear scenario. -/
def yB : NDArray := ⟨[2, 1], [[1], [2]]⟩

/-- Scenario A at heap level: the two caller arrays live at indices 0 and 1. -/
def heapA : Heap := [xA, yA]

/-- Heap after heap-level construction on scenario A: the caller's two
arrays followed by the freshly allocated augmented matrix and coefficient
vector (the witness of C9 checks this against `constructS`). -/
def heapA1 : Heap :=
  [xA, yA, ⟨[4, 2], [[1, 1], [1, 2], [1, 3], [1, 4]]⟩, ⟨[2, 1], [[0], [2]]⟩]

/-- Heap-level model for scenario A (the witness of C9 checks this against
`constructS`). -/
def mSA : ModelS := ⟨1, ⟨2⟩, ⟨1⟩, ⟨3⟩, 4, 2⟩

/-! ### Shape and entry lemmas for the array primitives -/

theorem rowsA_mk2 (r c : Nat) (f : Nat → Nat → ℚ) : rowsA (mk2 r c f) = r := rfl

theorem colsA_mk2 (r c : Nat) (f : Nat → Nat → ℚ) : colsA (mk2 r c f) = c := rfl

theorem entry_mk2 {r c : Nat} (f : Nat → Nat → ℚ) {i j : Nat} (hi : i < r) (hj : j < c) :
    entry (mk2 r c f) i j = f i j := by
  simp [entry, mk2, List.getD_eq_getElem?_getD, List.getElem?_map, List.getElem?_range, hi, hj]

theorem rowsA_foldl_hstack (x a : NDArray) (l : List Nat) :
    rowsA (l.foldl (fun acc d => hstackA acc (powA x d)) a) = rowsA a := by
  induction l generalizing a with
  | nil => rfl
  | cons d ds ih => exact ih (hstackA a (powA x d))

theorem colsA_foldl_hstack (x a : NDArray) (l : List Nat) :
    colsA (l.foldl (fun acc d => hstackA acc (powA x d)) a) = colsA a + l.length * colsA x := by
  induction l generalizing a with
  | nil => simp
  | cons d ds ih =>
      rw [List.foldl_cons, ih (hstackA a (powA x d))]
      have h1 : colsA (hstackA a (powA x d)) = colsA a + colsA x := rfl
      rw [h1, List.length_cons]
      ring

theorem rowsA_polynomial_features (x : NDArray) (d : Int) :
    rowsA (_polynomial_features x d) = rowsA x :=
  rowsA_foldl_hstack x x _

theorem colsA_polynomial_features (x : NDArray) (d : Int) :
    colsA (_polynomial_features x d) = colsA x * (1 + (d - 1).toNat) := by
  unfold _polynomial_features
  rw [colsA_foldl_hstack, List.length_range']
  ring

theorem rowsA_augmented (x : NDArray) (d : Int) : rowsA (augmented x d) = rowsA x :=
  rowsA_polynomial_features x d

theorem colsA_augmented (x : NDArray) (d : Int) :
    colsA (augmented x d) = 1 + colsA (_polynomial_features x d) := rfl

/-- When the degree is below 2, `range(2, degree + 1)` is empty, so the
expansion is the unmodified input. -/
theorem polynomial_features_of_degree_lt_two (x : NDArray) (d : Int) (hd : d < 2) :
    _polynomial_features x d = x := by
  unfold _polynomial_features
  have h1 : (d - 1).toNat = 0 := by omega
  rw [h1]
  rfl

/-! ### Validation lemmas -/

theorem check_none_iff (x y : NDArray) :
    _check x y = none ↔ x.ndim = 2 ∧ y.ndim = 2 ∧ colsA y = 1 ∧ rowsA x = rowsA y := by
  unfold _check
  split_ifs <;> simp_all

theorem check_some_shape (x y : NDArray)
    (h : x.ndim ≠ 2 ∨ y.ndim ≠ 2 ∨ colsA y ≠ 1 ∨ rowsA x ≠ rowsA y) :
    ∃ s, _check x y = some (RegError.invalidInputShape s) := by
  unfold _check
  split_ifs <;> first | exact ⟨_, rfl⟩ | tauto

/-- Successful construction pins down every attribute of the model. -/
theorem construct_ok_elim {x0 y0 : NDArray} {d : Int} {m : Model}
    (hm : construct x0 y0 d = Except.ok m) :
    _check x0 y0 = none ∧
    ∃ mi, invA (matmulA (transposeA (augmented x0 d)) (augmented x0 d)) = some mi ∧
      m = ⟨d, augmented x0 d, reshapeM1 y0,
           matmulA (matmulA mi (transposeA (augmented x0 d))) (reshapeM1 y0),
           rowsA (augmented x0 d), colsA (augmented x0 d)⟩ := by
  unfold construct at hm
  cases hc : _check x0 y0 with
  | some e => rw [hc] at hm; exact absurd hm (by simp)
  | none =>
    rw [hc] at hm
    cases hi : invA (matmulA (transposeA (augmented x0 d)) (augmented x0 d)) with
    | none => rw [hi] at hm; exact absurd hm (by simp)
    | some mi =>
      rw [hi] at hm
      simp only [Except.ok.injEq] at hm
      exact ⟨rfl, mi, rfl, hm.symm⟩

theorem entry_hstackA (a b : NDArray) {i j : Nat} (hi : i < rowsA a)
    (hj : j < colsA a + colsA b) :
    entry (hstackA a b) i j
      = if j < colsA a then entry a i j else entry b i (j - colsA a) := by
  unfold hstackA
  exact entry_mk2 _ hi hj

/-- Entry characterization of the per-column power expansion: after `k`
loop iterations the matrix is the concatenation of the elementwise powers
1, 2, …, k+1 of the input. -/
theorem entry_foldl_hstack_pow (x : NDArray) (k : Nat) :
    ∀ i j, i < rowsA x → j < colsA x * (1 + k) →
      entry ((List.range' 2 k).foldl (fun acc d => hstackA acc (powA x d)) x) i j =
        entry x i (j % colsA x) ^ (j / colsA x + 1) := by
  induction k with
  | zero =>
      intro i j hi hj
      have hj' : j < colsA x := by simpa using hj
      have e1 : (List.range' 2 0).foldl (fun acc d => hstackA acc (powA x d)) x = x := rfl
      rw [e1, Nat.mod_eq_of_lt hj', Nat.div_eq_of_lt hj']
      simp
  | succ k ih =>
      intro i j hi hj
      rw [List.range'_concat, List.foldl_append, List.foldl_cons, List.foldl_nil]
      have hrows : rowsA ((List.range' 2 k).foldl (fun acc d => hstackA acc (powA x d)) x)
          = rowsA x := rowsA_foldl_hstack x x _
      have hcols : colsA ((List.range' 2 k).foldl (fun acc d => hstackA acc (powA x d)) x)
          = colsA x * (1 + k) := by
        rw [colsA_foldl_hstack, List.length_range']
        ring
      have hsplit : colsA x * (1 + (k + 1)) = colsA x * (1 + k) + colsA x := by ring
      have hj2 : j < colsA ((List.range' 2 k).foldl (fun acc d => hstackA acc (powA x d)) x)
          + colsA (powA x (2 + 1 * k)) := by
        have hpc : colsA (powA x (2 + 1 * k)) = colsA x := rfl
        rw [hpc, hcols]
        rw [hsplit] at hj
        exact hj
      have hi2 : i < rowsA ((List.range' 2 k).foldl (fun acc d => hstackA acc (powA x d)) x) := by
        rw [hrows]; exact hi
      rw [entry_hstackA _ _ hi2 hj2]
      by_cases hcase : j < colsA ((List.range' 2 k).foldl (fun acc d => hstackA acc (powA x d)) x)
      · rw [if_pos hcase]
        exact ih i j hi (hcols ▸ hcase)
      · rw [if_neg hcase]
        rw [hcols] at hcase hj2
        have hc0 : 0 < colsA x := by
          rcases Nat.lt_or_ge j (colsA x * (1 + k) + colsA x) with h5 | h5
          · omega
          · omega
        have hq : j - colsA x * (1 + k) < colsA x := by omega
        have hje : j = colsA x * (1 + k) + (j - colsA x * (1 + k)) := by omega
        have hmod : j % colsA x = j - colsA x * (1 + k) := by
          conv_lhs => rw [hje]
          rw [Nat.mul_add_mod, Nat.mod_eq_of_lt hq]
        have hdiv : j / colsA x = 1 + k := by
          conv_lhs => rw [hje]
          rw [Nat.mul_add_div hc0, Nat.div_eq_of_lt hq]
          omega
        have ep : entry (powA x (2 + 1 * k)) i (j - colsA x * (1 + k))
            = entry x i (j - colsA x * (1 + k)) ^ (2 + 1 * k) := by
          unfold powA
          rw [entry_mk2 _ hi hq]
        rw [hcols, ep, hmod, hdiv]
        congr 1
        omega

/-- Two `mk2` arrays with the same dimensions and entrywise equal
generating functions are equal. -/
theorem mk2_congr {r c : Nat} {f g : Nat → Nat → ℚ}
    (h : ∀ i, i < r → ∀ j, j < c → f i j = g i j) : mk2 r c f = mk2 r c g := by
  unfold mk2
  congr 1
  apply List.map_congr_left
  intro i hi
  apply List.map_congr_left
  intro j hj
  exact h i (List.mem_range.mp hi) j (List.mem_range.mp hj)

/-- Multiplying on the right by `y.reshape(-1, 1)` is the same as multiplying
by `y` itself when `y` already has exactly one column. -/
theorem matmulA_reshapeM1_right (A y : NDArray) (hy : colsA y = 1)
    (hA : colsA A = rowsA y) : matmulA A (reshapeM1 y) = matmulA A y := by
  unfold matmulA
  have hc : colsA (reshapeM1 y) = colsA y := by
    have e1 : colsA (reshapeM1 y) = 1 := rfl
    rw [e1, hy]
  rw [hc]
  apply mk2_congr
  intro i hi j hj
  apply congrArg List.sum
  apply List.map_congr_left
  intro k hk
  have hk' : k < rowsA y := hA ▸ List.mem_range.mp hk
  have hj1 : j = 0 := by
    have := hj
    omega
  subst hj1
  have e2 : entry (reshapeM1 y) k 0 = entry y (k / colsA y) (k % colsA y) := by
    unfold reshapeM1
    apply entry_mk2
    · rw [hy, Nat.mul_one]; exact hk'
    · exact Nat.zero_lt_one
  rw [e2, hy, Nat.div_one, Nat.mod_one]

/-- Summing all entries of a one-column `mk2` array. -/
theorem sumAll_mk2_one (r : Nat) (g : Nat → Nat → ℚ) :
    sumAll (mk2 r 1 g) = ((List.range r).map (fun i => g i 0)).sum := by
  unfold sumAll mk2
  rw [List.map_map]
  apply congrArg List.sum
  apply List.map_congr_left
  intro i _
  have e1 : List.range 1 = [0] := rfl
  rw [e1]
  simp

/-- The residual loss as an explicit sum over the rows of the target. -/
theorem lossVal_eq_sum (x y beta : NDArray) (hcy : colsA y = 1) :
    lossVal x y beta =
      ((List.range (rowsA y)).map
        (fun i => (entry y i 0 - entry (matmulA x beta) i 0) ^ 2)).sum := by
  unfold lossVal
  have h1 : powA (subA y (matmulA x beta)) 2
      = mk2 (rowsA y) 1 (fun i j => entry (subA y (matmulA x beta)) i j ^ 2) := by
    unfold powA
    have e1 : rowsA (subA y (matmulA x beta)) = rowsA y := rfl
    have e2 : colsA (subA y (matmulA x beta)) = colsA y := rfl
    rw [e1, e2, hcy]
  rw [h1, sumAll_mk2_one]
  apply congrArg List.sum
  apply List.map_congr_left
  intro i hi
  have hi' : i < rowsA y := List.mem_range.mp hi
  have e3 : entry (subA y (matmulA x beta)) i 0
      = entry y i 0 - entry (matmulA x beta) i 0 := by
    unfold subA
    apply entry_mk2
    · exact hi'
    · rw [hcy]; exact Nat.zero_lt_one
  rw [e3]

/-- Successful heap-level construction pins down the references: `x` and
`beta` are the two freshly appended buffers and `y` is the caller's
reference. -/
theorem constructS_ok_elim {h : Heap} {xr yr : Ref} {d : Int} {h2 : Heap} {m : ModelS}
    (hm : constructS h xr yr d = Except.ok (h2, m)) :
    m.x = ⟨h.length⟩ ∧ m.y = yr ∧ m.beta = ⟨h.length + 1⟩ ∧
    ∃ X B, h2 = h ++ [X, B] := by
  unfold constructS at hm
  cases hc : _check (readRef h xr) (readRef h yr) with
  | some e => rw [hc] at hm; exact absurd hm (by simp)
  | none =>
    rw [hc] at hm
    cases hi : invA (matmulA (transposeA (augmented (readRef h xr) d))
        (augmented (readRef h xr) d)) with
    | none => rw [hi] at hm; exact absurd hm (by simp)
    | some mi =>
      rw [hi] at hm
      simp only [Except.ok.injEq, Prod.mk.injEq] at hm
      obtain ⟨hh, hmm⟩ := hm
      rw [← hmm]
      exact ⟨rfl, rfl, rfl, _, _, hh.symm⟩

theorem rowsA_invA {a mi : NDArray} (h : invA a = some mi) : rowsA mi = rowsA a := by
  unfold invA at h
  by_cases hd : detL a.data = 0
  · simp [hd] at h
  · simp only [hd, if_false, Option.some.injEq] at h
    rw [← h]
    rfl

/-! ### Claim theorems -/

/-- C1: for every valid training input accepted by the constructor, the
stored coefficient vector is exactly the normal-equation solution
β = (XᵗX)⁻¹ Xᵗ Y, where X is the expanded feature matrix with a column of
ones prepended as its first column. -/
theorem construct_beta_normal_equation (x0 y0 : NDArray) (d : Int) (m : Model)
    (hm : construct x0 y0 d = Except.ok m) :
    normalEquationBeta x0 y0 d = some m.beta := by
  obtain ⟨hchk, mi, hinv, hmod⟩ := construct_ok_elim hm
  obtain ⟨hx2, hy2, hy1, hrr⟩ := (check_none_iff x0 y0).mp hchk
  have hXeq : hstackA (onesA (rowsA x0)) (_polynomial_features x0 d) = augmented x0 d := by
    unfold augmented
    rw [rowsA_polynomial_features]
  unfold normalEquationBeta
  rw [hXeq, hinv, Option.map_some']
  have hbeta : m.beta
      = matmulA (matmulA mi (transposeA (augmented x0 d))) (reshapeM1 y0) := by
    rw [hmod]
  rw [hbeta]
  have hA : colsA (matmulA mi (transposeA (augmented x0 d))) = rowsA y0 := by
    have e1 : colsA (matmulA mi (transposeA (augmented x0 d)))
        = rowsA (augmented x0 d) := rfl
    rw [e1, rowsA_augmented, hrr]
  rw [matmulA_reshapeM1_right _ y0 hy1 hA]

/-- Witness for C1 at scenario A of the spec. -/
theorem construct_beta_normal_equation_witness :
    normalEquationBeta xA yA 1 = some mA.beta :=
  construct_beta_normal_equation xA yA 1 mA (by norm_num [construct, _check, augmented, _polynomial_features, invA, detL, detFuel, minorL, cofactorL, mk2, hstackA, powA, onesA, transposeA, matmulA, reshapeM1, entry, rowsA, colsA, NDArray.ndim, xA, yA, mA, List.enum, List.enumFrom, List.range, List.range.loop, List.range', List.getD, List.foldl])

/-- C2: for a 2-dimensional input and degree d ≥ 1, polynomial expansion
keeps the row count, has exactly m·d columns, every entry of block p is the
(p+1)-st elementwise power of the corresponding original column (so there
are no cross-feature interaction terms), and degree 1 is the identity. -/
theorem polynomial_features_spec (x : NDArray) (d : Int) (hd : 1 ≤ d) :
    rowsA (_polynomial_features x d) = rowsA x ∧
    colsA (_polynomial_features x d) = colsA x * d.toNat ∧
    (∀ i j, i < rowsA x → j < colsA x * d.toNat →
      entry (_polynomial_features x d) i j = entry x i (j % colsA x) ^ (j / colsA x + 1)) ∧
    _polynomial_features x 1 = x := by
  have hk : 1 + (d - 1).toNat = d.toNat := by omega
  refine ⟨rowsA_polynomial_features x d, ?_, ?_, rfl⟩
  · rw [colsA_polynomial_features, hk]
  · intro i j hi hj
    have h1 := entry_foldl_hstack_pow x ((d - 1).toNat) i j hi (by rw [hk]; exact hj)
    exact h1

/-- Witness for C2: a 2 × 2 input at degree 2. -/
theorem polynomial_features_spec_witness :
    rowsA (_polynomial_features ⟨[2, 2], [[1, 2], [3, 4]]⟩ 2)
        = rowsA (⟨[2, 2], [[1, 2], [3, 4]]⟩ : NDArray) ∧
    colsA (_polynomial_features ⟨[2, 2], [[1, 2], [3, 4]]⟩ 2)
        = colsA (⟨[2, 2], [[1, 2], [3, 4]]⟩ : NDArray) * (2 : Int).toNat ∧
    (∀ i j, i < rowsA (⟨[2, 2], [[1, 2], [3, 4]]⟩ : NDArray) →
      j < colsA (⟨[2, 2], [[1, 2], [3, 4]]⟩ : NDArray) * (2 : Int).toNat →
      entry (_polynomial_features ⟨[2, 2], [[1, 2], [3, 4]]⟩ 2) i j
        = entry ⟨[2, 2], [[1, 2], [3, 4]]⟩ i
            (j % colsA (⟨[2, 2], [[1, 2], [3, 4]]⟩ : NDArray))
            ^ (j / colsA (⟨[2, 2], [[1, 2], [3, 4]]⟩ : NDArray) + 1)) ∧
    _polynomial_features ⟨[2, 2], [[1, 2], [3, 4]]⟩ 1 = ⟨[2, 2], [[1, 2], [3, 4]]⟩ :=
  polynomial_features_spec ⟨[2, 2], [[1, 2], [3, 4]]⟩ 2 (by decide)

/-- C3: prediction on a trained model with a 2-dimensional input whose
column count matches the training features expands with the training
degree, prepends a bias column, and returns the k × 1 matrix
[1 | expand(x)]·β; moreover (heap level) a successful predict only appends
its freshly allocated result to the heap and writes to no existing buffer,
so it cannot mutate model state. -/
theorem predict_spec (x0 y0 x : NDArray) (d : Int) (m : Model)
    (hm : construct x0 y0 d = Except.ok m) (hx : x.ndim = 2) (hc : colsA x = colsA x0) :
    m.degree = d ∧
    predict m x =
      Except.ok (matmulA (hstackA (onesA (rowsA x)) (_polynomial_features x d)) m.beta) ∧
    rowsA (matmulA (hstackA (onesA (rowsA x)) (_polynomial_features x d)) m.beta) = rowsA x ∧
    colsA (matmulA (hstackA (onesA (rowsA x)) (_polynomial_features x d)) m.beta) = 1 ∧
    (∀ (h : Heap) (ms : ModelS) (xr : Ref) (h1 : Heap) (r : Ref),
      predictS h ms xr = Except.ok (h1, r) → h1 = h ++ [readRef h1 r] ∧ r = ⟨h.length⟩) := by
  obtain ⟨hchk, mi, hinv, hmod⟩ := construct_ok_elim hm
  have hdm : m.degree = d := by rw [hmod]
  have hnf : m.num_feature = 1 + colsA (_polynomial_features x0 d) := by rw [hmod]; rfl
  have hwidth : colsA (_polynomial_features x m.degree) = m.num_feature - 1 := by
    rw [hdm, hnf, colsA_polynomial_features, colsA_polynomial_features, hc]
    omega
  refine ⟨hdm, ?_, ?_, ?_, ?_⟩
  · unfold predict
    rw [if_neg (by simp [hx]), if_neg (by simp [hwidth]), hdm]
  · rfl
  · have e1 : colsA (matmulA (hstackA (onesA (rowsA x)) (_polynomial_features x d)) m.beta)
        = colsA m.beta := rfl
    rw [e1, hmod]
    rfl
  · intro h ms xr h1 r hp
    unfold predictS at hp
    by_cases hnd : (readRef h xr).ndim ≠ 2
    · rw [if_pos hnd] at hp
      exact absurd hp (by simp)
    · rw [if_neg hnd] at hp
      by_cases hwd : colsA (_polynomial_features (readRef h xr) ms.degree) ≠ ms.num_feature - 1
      · rw [if_pos hwd] at hp
        exact absurd hp (by simp)
      · rw [if_neg hwd] at hp
        simp only [Except.ok.injEq, Prod.mk.injEq] at hp
        obtain ⟨hh, hr⟩ := hp
        subst hr
        subst hh
        refine ⟨?_, rfl⟩
        have e2 : readRef (h ++ [matmulA (hstackA (onesA (rowsA (readRef h xr)))
              (_polynomial_features (readRef h xr) ms.degree)) (readRef h ms.beta)])
              (⟨h.length⟩ : Ref)
            = matmulA (hstackA (onesA (rowsA (readRef h xr)))
              (_polynomial_features (readRef h xr) ms.degree)) (readRef h ms.beta) := by
          unfold readRef
          rw [List.getD_eq_getElem?_getD, List.getElem?_concat_length, Option.getD_some]
        rw [e2]

/-- Witness for C3 at scenario A: predicting at x = 5. -/
theorem predict_spec_witness :
    mA.degree = 1 ∧
    predict mA ⟨[1, 1], [[5]]⟩ =
      Except.ok (matmulA (hstackA (onesA (rowsA (⟨[1, 1], [[5]]⟩ : NDArray)))
        (_polynomial_features ⟨[1, 1], [[5]]⟩ 1)) mA.beta) ∧
    rowsA (matmulA (hstackA (onesA (rowsA (⟨[1, 1], [[5]]⟩ : NDArray)))
        (_polynomial_features ⟨[1, 1], [[5]]⟩ 1)) mA.beta)
      = rowsA (⟨[1, 1], [[5]]⟩ : NDArray) ∧
    colsA (matmulA (hstackA (onesA (rowsA (⟨[1, 1], [[5]]⟩ : NDArray)))
        (_polynomial_features ⟨[1, 1], [[5]]⟩ 1)) mA.beta) = 1 ∧
    (∀ (h : Heap) (ms : ModelS) (xr : Ref) (h1 : Heap) (r : Ref),
      predictS h ms xr = Except.ok (h1, r) → h1 = h ++ [readRef h1 r] ∧ r = ⟨h.length⟩) :=
  predict_spec xA yA ⟨[1, 1], [[5]]⟩ 1 mA (by norm_num [construct, _check, augmented, _polynomial_features, invA, detL, detFuel, minorL, cofactorL, mk2, hstackA, powA, onesA, transposeA, matmulA, reshapeM1, entry, rowsA, colsA, NDArray.ndim, xA, yA, mA, List.enum, List.enumFrom, List.range, List.range.loop, List.range', List.getD, List.foldl]) (by rfl) (by rfl)

/-- C4: for every trained model the loss is the sum of squared residuals
Σ(Yᵢ − (Xβ)ᵢ)² over the training set, a pure function of the stored data
and β, and it is nonnegative. -/
theorem loss_spec (x0 y0 : NDArray) (d : Int) (m : Model)
    (hm : construct x0 y0 d = Except.ok m) :
    loss m = ((List.range m.num_data).map
        (fun i => (entry m.y i 0 - entry (matmulA m.x m.beta) i 0) ^ 2)).sum ∧
    0 ≤ loss m := by
  obtain ⟨hchk, mi, hinv, hmod⟩ := construct_ok_elim hm
  obtain ⟨hx2, hy2, hy1, hrr⟩ := (check_none_iff x0 y0).mp hchk
  have hcy : colsA m.y = 1 := by
    rw [hmod]
    show colsA (reshapeM1 y0) = 1
    rfl
  have hnd : m.num_data = rowsA m.y := by
    rw [hmod]
    show rowsA (augmented x0 d) = rowsA (reshapeM1 y0)
    have e1 : rowsA (reshapeM1 y0) = rowsA y0 * colsA y0 := rfl
    rw [e1, rowsA_augmented, hy1, hrr, Nat.mul_one]
  have hsum := lossVal_eq_sum m.x m.y m.beta hcy
  constructor
  · show lossVal m.x m.y m.beta = _
    rw [hsum, hnd]
  · show 0 ≤ lossVal m.x m.y m.beta
    rw [hsum]
    apply List.sum_nonneg
    intro q hq
    simp only [List.mem_map] at hq
    obtain ⟨i, _, hqe⟩ := hq
    rw [← hqe]
    exact sq_nonneg _

/-- Witness for C4 at scenario A (perfect linear fit, loss 0). -/
theorem loss_spec_witness :
    loss mA = ((List.range mA.num_data).map
        (fun i => (entry mA.y i 0 - entry (matmulA mA.x mA.beta) i 0) ^ 2)).sum ∧
    0 ≤ loss mA :=
  loss_spec xA yA 1 mA (by norm_num [construct, _check, augmented, _polynomial_features, invA, detL, detFuel, minorL, cofactorL, mk2, hstackA, powA, onesA, transposeA, matmulA, reshapeM1, entry, rowsA, colsA, NDArray.ndim, xA, yA, mA, List.enum, List.enumFrom, List.range, List.range.loop, List.range', List.getD, List.foldl])

/-- C5: construction fails with an InvalidInputShape error (and, the result
being an error, leaves no constructed state observable) exactly when X₀ is
not 2-dimensional, Y is not 2-dimensional, Y does not have exactly one
column, or the row counts differ; otherwise validation passes. -/
theorem construct_validation_iff (x0 y0 : NDArray) (d : Int) :
    (∃ s, construct x0 y0 d = Except.error (RegError.invalidInputShape s)) ↔
      x0.ndim ≠ 2 ∨ y0.ndim ≠ 2 ∨ colsA y0 ≠ 1 ∨ rowsA x0 ≠ rowsA y0 := by
  constructor
  · rintro ⟨s, hs⟩
    by_contra hcon
    push_neg at hcon
    obtain ⟨h1, h2, h3, h4⟩ := hcon
    have h0 : _check x0 y0 = none := (check_none_iff x0 y0).mpr ⟨h1, h2, h3, h4⟩
    unfold construct at hs
    rw [h0] at hs
    cases hi : invA (matmulA (transposeA (augmented x0 d)) (augmented x0 d)) with
    | none => rw [hi] at hs; simp at hs
    | some mi => rw [hi] at hs; simp at hs
  · intro hcond
    obtain ⟨s, hs⟩ := check_some_shape x0 y0 hcond
    refine ⟨s, ?_⟩
    unfold construct
    rw [hs]

/-- C6: predict fails with an InvalidInputShape error exactly when the input
is not 2-dimensional or its expanded width differs from the trained
augmented width minus one; in particular a 2-dimensional input whose
pre-expansion column count differs from the training feature count fails. -/
theorem predict_validation_iff (x0 y0 x : NDArray) (d : Int) (m : Model)
    (hm : construct x0 y0 d = Except.ok m) :
    ((∃ s, predict m x = Except.error (RegError.invalidInputShape s)) ↔
      x.ndim ≠ 2 ∨ colsA (_polynomial_features x m.degree) ≠ m.num_feature - 1) ∧
    (x.ndim = 2 → colsA x ≠ colsA x0 →
      ∃ s, predict m x = Except.error (RegError.invalidInputShape s)) := by
  obtain ⟨hchk, mi, hinv, hmod⟩ := construct_ok_elim hm
  have hiff : (∃ s, predict m x = Except.error (RegError.invalidInputShape s)) ↔
      x.ndim ≠ 2 ∨ colsA (_polynomial_features x m.degree) ≠ m.num_feature - 1 := by
    unfold predict
    by_cases hnd : x.ndim ≠ 2
    · rw [if_pos hnd]
      exact iff_of_true ⟨_, rfl⟩ (Or.inl hnd)
    · rw [if_neg hnd]
      by_cases hwd : colsA (_polynomial_features x m.degree) ≠ m.num_feature - 1
      · rw [if_pos hwd]
        exact iff_of_true ⟨_, rfl⟩ (Or.inr hwd)
      · rw [if_neg hwd]
        refine iff_of_false ?_ ?_
        · rintro ⟨s, hs⟩
          exact absurd hs (by simp)
        · rintro (hcon | hcon) <;> contradiction
  refine ⟨hiff, ?_⟩
  intro hx2 hcc
  apply hiff.mpr
  right
  have hdm : m.degree = d := by rw [hmod]
  have hnf : m.num_feature = 1 + colsA (_polynomial_features x0 d) := by rw [hmod]; rfl
  rw [hdm, hnf, colsA_polynomial_features, colsA_polynomial_features]
  intro he
  apply hcc
  have hK1 : 0 < 1 + (d - 1).toNat := by omega
  have he2 : colsA x * (1 + (d - 1).toNat) = colsA x0 * (1 + (d - 1).toNat) := by omega
  exact Nat.eq_of_mul_eq_mul_right hK1 he2

/-- Witness for C6 at scenario A: a 1 × 2 input against a model trained on
one feature. -/
theorem predict_validation_iff_witness :
    ((∃ s, predict mA ⟨[1, 2], [[5, 6]]⟩ = Except.error (RegError.invalidInputShape s)) ↔
      (⟨[1, 2], [[5, 6]]⟩ : NDArray).ndim ≠ 2 ∨
        colsA (_polynomial_features ⟨[1, 2], [[5, 6]]⟩ mA.degree) ≠ mA.num_feature - 1) ∧
    ((⟨[1, 2], [[5, 6]]⟩ : NDArray).ndim = 2 →
      colsA (⟨[1, 2], [[5, 6]]⟩ : NDArray) ≠ colsA xA →
      ∃ s, predict mA ⟨[1, 2], [[5, 6]]⟩ = Except.error (RegError.invalidInputShape s)) :=
  predict_validation_iff xA yA ⟨[1, 2], [[5, 6]]⟩ 1 mA
    (by norm_num [construct, _check, augmented, _polynomial_features, invA, detL, detFuel,
      minorL, cofactorL, mk2, hstackA, powA, onesA, transposeA, matmulA, reshapeM1, entry,
      rowsA, colsA, NDArray.ndim, xA, yA, mA, List.enum, List.enumFrom, List.range,
      List.range.loop, List.range', List.getD, List.foldl])

/-- C7: when the Gram matrix XᵗX of the augmented matrix is singular, the
matrix-inversion failure propagates unmodified: construction fails with
SingularMatrix, with no fallback. -/
theorem singular_matrix_propagates (x0 y0 : NDArray) (d : Int)
    (hchk : _check x0 y0 = none)
    (hs : detL (matmulA (transposeA (augmented x0 d)) (augmented x0 d)).data = 0) :
    construct x0 y0 d = Except.error RegError.singularMatrix := by
  have hi : invA (matmulA (transposeA (augmented x0 d)) (augmented x0 d)) = none := by
    unfold invA
    simp [hs]
  unfold construct
  rw [hchk, hi]

/-- Witness for C7: a feature matrix with two identical columns makes the
Gram matrix singular and construction fails with SingularMatrix. -/
theorem singular_matrix_propagates_witness :
    construct xB yB 1 = Except.error RegError.singularMatrix :=
  singular_matrix_propagates xB yB 1 (by rfl)
    (by norm_num [augmented, _polynomial_features, detL, detFuel, minorL, cofactorL, mk2,
      hstackA, powA, onesA, transposeA, matmulA, entry, rowsA, colsA, xB, List.enum,
      List.enumFrom, List.range, List.range.loop, List.range', List.getD, List.foldl])

/-- C8: after construction on an n × m feature matrix with degree d ≥ 1,
para() returns the coefficient vector of shape (1 + m·d) × 1. -/
theorem para_length (x0 y0 : NDArray) (d : Int) (m : Model)
    (hm : construct x0 y0 d = Except.ok m) (hd : 1 ≤ d) :
    rowsA (para m) = 1 + colsA x0 * d.toNat ∧ colsA (para m) = 1 := by
  obtain ⟨hchk, mi, hinv, hmod⟩ := construct_ok_elim hm
  constructor
  · show rowsA m.beta = _
    rw [hmod]
    have e1 : rowsA (matmulA (matmulA mi (transposeA (augmented x0 d))) (reshapeM1 y0))
        = rowsA mi := rfl
    show rowsA (matmulA (matmulA mi (transposeA (augmented x0 d))) (reshapeM1 y0)) = _
    rw [e1, rowsA_invA hinv]
    have e2 : rowsA (matmulA (transposeA (augmented x0 d)) (augmented x0 d))
        = colsA (augmented x0 d) := rfl
    rw [e2, colsA_augmented, colsA_polynomial_features]
    have e3 : 1 + (d - 1).toNat = d.toNat := by omega
    rw [e3]
  · show colsA m.beta = 1
    rw [hmod]
    rfl

/-- Witness for C8 at scenario A: β has shape 2 × 1 for m = 1, d = 1. -/
theorem para_length_witness :
    rowsA (para mA) = 1 + colsA xA * (1 : Int).toNat ∧ colsA (para mA) = 1 :=
  para_length xA yA 1 mA
    (by norm_num [construct, _check, augmented, _polynomial_features, invA, detL, detFuel,
      minorL, cofactorL, mk2, hstackA, powA, onesA, transposeA, matmulA, reshapeM1, entry,
      rowsA, colsA, NDArray.ndim, xA, yA, mA, List.enum, List.enumFrom, List.range,
      List.range.loop, List.range', List.getD, List.foldl])
    (by decide)

/-- C9 (amended): the engine's stored feature matrix and coefficient vector
are freshly allocated buffers, but `para()` hands back the internal
coefficient array itself (no copy) and the stored target is the caller's
buffer (a reshape view): a write through the reference returned by `para()`
replaces the coefficient data used by every later `loss()`. -/
theorem para_returns_internal_beta (h : Heap) (xr yr : Ref) (d : Int)
    (h2 : Heap) (m : ModelS) (v : NDArray)
    (hy : yr.id < h.length)
    (hm : constructS h xr yr d = Except.ok (h2, m)) :
    paraS m = m.beta ∧ m.y = yr ∧
    lossS (writeRef h2 (paraS m) v) m =
      lossVal (readRef h2 m.x) (readRef h2 m.y) v := by
  obtain ⟨hx, hyy, hb, X, B, hh⟩ := constructS_ok_elim hm
  refine ⟨rfl, hyy, ?_⟩
  have hlen : h2.length = h.length + 2 := by rw [hh]; simp
  have r1 : readRef (writeRef h2 ⟨h.length + 1⟩ v) ⟨h.length⟩ = readRef h2 ⟨h.length⟩ := by
    unfold readRef writeRef
    rw [List.getD_eq_getElem?_getD, List.getD_eq_getElem?_getD,
      List.getElem?_set_ne (show h.length + 1 ≠ h.length by omega)]
  have r2 : readRef (writeRef h2 ⟨h.length + 1⟩ v) yr = readRef h2 yr := by
    unfold readRef writeRef
    rw [List.getD_eq_getElem?_getD, List.getD_eq_getElem?_getD,
      List.getElem?_set_ne (show h.length + 1 ≠ yr.id by omega)]
  have r3 : readRef (writeRef h2 ⟨h.length + 1⟩ v) ⟨h.length + 1⟩ = v := by
    unfold readRef writeRef
    rw [List.getD_eq_getElem?_getD,
      List.getElem?_set_eq_of_lt _ (show h.length + 1 < h2.length by omega),
      Option.getD_some]
  unfold lossS paraS
  rw [hb, hx, hyy, r1, r2, r3]

/-- Witness for C9 (amended) at scenario A. -/
theorem para_returns_internal_beta_witness :
    paraS mSA = mSA.beta ∧ mSA.y = ⟨1⟩ ∧
    lossS (writeRef heapA1 (paraS mSA) ⟨[2, 1], [[1], [1]]⟩) mSA =
      lossVal (readRef heapA1 mSA.x) (readRef heapA1 mSA.y) ⟨[2, 1], [[1], [1]]⟩ :=
  para_returns_internal_beta heapA ⟨0⟩ ⟨1⟩ 1 heapA1 mSA ⟨[2, 1], [[1], [1]]⟩ (by decide)
    (by norm_num [constructS, _check, augmented, _polynomial_features, invA, detL, detFuel,
      minorL, cofactorL, mk2, hstackA, powA, onesA, transposeA, matmulA, reshapeM1, entry,
      rowsA, colsA, NDArray.ndim, xA, yA, heapA, heapA1, mSA, readRef, List.enum,
      List.enumFrom, List.range, List.range.loop, List.range', List.getD, List.foldl])

/-- Counterexample to C9 as stated: on scenario A the training loss is 0,
but after the caller overwrites, in place, the array returned by `para()`,
the model's own `loss()` changes to 120 — mutation through the value
returned by `para()` does change the model's internal state and the results
of later queries. -/
theorem para_alias_loss_counterexample :
    lossS heapA1 mSA = 0 ∧
    lossS (writeRef heapA1 (paraS mSA) ⟨[2, 1], [[0], [0]]⟩) mSA = 120 := by
  constructor <;>
    norm_num [lossS, lossVal, writeRef, readRef, paraS, sumAll, powA, subA, matmulA, mk2,
      entry, rowsA, colsA, heapA1, mSA, xA, yA, List.getD, List.set, List.range,
      List.range.loop]

/-- C10: the constructor does not validate the degree: for any degree below
2 (0 and negatives included) the expansion returns X₀ unchanged and the
constructed model differs from the degree-1 model only in the stored degree
attribute, so β, predictions and loss coincide — nothing rejects degrees
below 1. -/
theorem degree_below_two_equals_degree_one (x0 y0 : NDArray) (d : Int) (hd : d < 2) :
    _polynomial_features x0 d = x0 ∧
    construct x0 y0 d = Except.map (fun m => { m with degree := d }) (construct x0 y0 1) ∧
    (∀ (m : Model) (x : NDArray),
      predict { m with degree := d } x = predict { m with degree := (1 : Int) } x) ∧
    (∀ m : Model, loss { m with degree := d } = loss m) := by
  have hp : ∀ z : NDArray, _polynomial_features z d = z :=
    fun z => polynomial_features_of_degree_lt_two z d hd
  have hp1 : ∀ z : NDArray, _polynomial_features z 1 = z := fun z => rfl
  refine ⟨hp x0, ?_, ?_, fun m => rfl⟩
  · have haug : augmented x0 d = augmented x0 1 := by
      unfold augmented
      rw [hp x0, hp1 x0]
    unfold construct
    rw [haug]
    cases _check x0 y0 with
    | some e => rfl
    | none =>
      cases invA (matmulA (transposeA (augmented x0 1)) (augmented x0 1)) with
      | none => rfl
      | some mi => rfl
  · intro m x
    unfold predict
    rw [show ({ m with degree := d } : Model).degree = d from rfl,
        show ({ m with degree := (1 : Int) } : Model).degree = (1 : Int) from rfl,
        hp x, hp1 x]

/-- Witness for C10 at scenario A with degree 0. -/
theorem degree_below_two_equals_degree_one_witness :
    _polynomial_features xA 0 = xA ∧
    construct xA yA 0 = Except.map (fun m => { m with degree := (0 : Int) }) (construct xA yA 1) ∧
    (∀ (m : Model) (x : NDArray),
      predict { m with degree := (0 : Int) } x = predict { m with degree := (1 : Int) } x) ∧
    (∀ m : Model, loss { m with degree := (0 : Int) } = loss m) :=
  degree_below_two_equals_degree_one xA yA 0 (by decide)
